import Mathlib

/-!
Verification development for the blog-post content fetcher
(`src/content_fetcher.py`).

The HTTP transport and the HTML parse-tree library are external
collaborators of the program: we embed them as an abstract transport
outcome per request profile and a queryable tree of nodes.  Everything
with decision logic — the profile retry loop, challenge-page sniffing,
content-area discovery, link classification, body-text normalization and
slug derivation — is translated directly from the source.
-/

set_option maxRecDepth 8000

namespace ContentFetcher

/-! ### HTML tree model

The parse-tree capability assumed by the program: a tree of element and
text nodes, supporting CSS-style selector lookup, tag-name lookup and
text extraction in document (pre-)order. -/

inductive Node where
  | element (tag : String) (attrs : List (String × String)) (children : List Node)
  | text (s : String)

mutual

/-- All text-node contents inside a node, in document order
(the strings `bs4` iterates over for `get_text`). -/
def nodeTexts : Node → List String
  | .text s => [s]
  | .element _ _ cs => nodesTexts cs

def nodesTexts : List Node → List String
  | [] => []
  | n :: ns => nodeTexts n ++ nodesTexts ns

end

mutual

/-- Pre-order traversal of a node (the node itself followed by its
descendants), restricted to element nodes. -/
def preorder : Node → List Node
  | .text _ => []
  | .element t a cs => Node.element t a cs :: preorderList cs

def preorderList : List Node → List Node
  | [] => []
  | n :: ns => preorder n ++ preorderList ns

end

/-- The element descendants of a node in document order (`bs4` searches
descendants, not the node itself). -/
def descendants : Node → List Node
  | .text _ => []
  | .element _ _ cs => preorderList cs

/-! ### String helpers mirroring Python primitives -/

/-- Python `s.split(sep)` generalized: split a character list at every
character satisfying `p`, keeping empty pieces (always at least one
piece). -/
def splitBy (p : Char → Bool) : List Char → List (List Char)
  | [] => [[]]
  | c :: rest =>
    if p c then [] :: splitBy p rest
    else
      match splitBy p rest with
      | [] => [[c]]
      | g :: gs => (c :: g) :: gs

/-- Python `str.split()` with no argument: split on whitespace runs,
dropping empty tokens. -/
def pySplit (s : String) : List String :=
  ((splitBy Char.isWhitespace s.toList).filter (fun t => !t.isEmpty)).map List.asString

/-- Python `str.strip()`: drop whitespace from both ends. -/
def pyStrip (s : String) : String :=
  (((s.toList.dropWhile Char.isWhitespace).reverse.dropWhile Char.isWhitespace).reverse).asString

/-- Python `str.lower()` (ASCII case folding). -/
def strToLower (s : String) : String :=
  (s.toList.map Char.toLower).asString

/-- Python `needle in hay` prefix test at the head position. -/
def startsWithList : List Char → List Char → Bool
  | [], _ => true
  | _ :: _, [] => false
  | n :: ns, h :: hs => (n == h) && startsWithList ns hs

/-- Python `needle in hay` on strings: `needle` occurs contiguously in
`hay`. -/
def containsList (needle : List Char) : List Char → Bool
  | [] => startsWithList needle []
  | h :: hs => startsWithList needle (h :: hs) || containsList needle hs

def containsStr (hay needle : String) : Bool :=
  containsList needle.toList hay.toList

/-- Python `str.startswith`. -/
def strStartsWith (s pre : String) : Bool :=
  startsWithList pre.toList s.toList

/-- Python `str.endswith`. -/
def strEndsWith (s suf : String) : Bool :=
  startsWithList suf.toList.reverse s.toList.reverse

/-! ### Attribute and selector lookup -/

/-- First value of an attribute on an attribute list. -/
def getAttr (name : String) (attrs : List (String × String)) : Option String :=
  (attrs.find? (fun p => p.1 == name)).map Prod.snd

/-- The whitespace-separated class names of an element. -/
def classList (attrs : List (String × String)) : List String :=
  match getAttr "class" attrs with
  | some v => pySplit v
  | none => []

/-- Whether a node matches one selector string: a leading `.` selects by
class, a leading `#` selects by id, otherwise by tag name.  These are the
only selector forms in `CONTENT_SELECTORS`. -/
def matchesSel (sel : String) : Node → Bool
  | .element tag attrs _ =>
    if strStartsWith sel "." then (classList attrs).contains (sel.drop 1)
    else if strStartsWith sel "#" then getAttr "id" attrs == some (sel.drop 1)
    else tag == sel
  | .text _ => false

/-- `soup.select_one(sel)`: first matching element in document order. -/
def selectOne (sel : String) (doc : Node) : Option Node :=
  (descendants doc).find? (matchesSel sel)

def tagOf : Node → String
  | .element t _ _ => t
  | .text _ => ""

/-- `soup.find(tag)` / attribute access like `soup.body`, `soup.title`:
first element with the given name in document order. -/
def findTag (tag : String) (doc : Node) : Option Node :=
  (descendants doc).find? (fun n => tagOf n == tag)

/-- `region.find_all([t1, t2, ...])`: all descendant elements whose tag is
in the list, in document order. -/
def findTags (tags : List String) (region : Node) : List Node :=
  (descendants region).filter (fun n => tags.contains (tagOf n))

/-! ### Text extraction (`get_text`)

`get_text(strip=True)` strips every text chunk, drops the ones that
become empty, and joins the rest — with the empty separator by default,
with the given separator otherwise. -/

def strippedStrings (n : Node) : List String :=
  ((nodeTexts n).map pyStrip).filter (fun s => s != "")

/-- `node.get_text(strip=True)`. -/
def getTextStrip (n : Node) : String :=
  String.join (strippedStrings n)

/-- `node.get_text(separator="\n", strip=True)`. -/
def getTextNl (n : Node) : String :=
  String.intercalate "\n" (strippedStrings n)

/-! ### Constants from the source -/

def HEADER_SETS : List (List (String × String)) :=
  [ [("User-Agent", "Mozilla/5.0 (compatible; BlogRevivalBot/1.0; +https://airanking.com)")],
    [("User-Agent", "Mozilla/5.0 (Windows NT 10.0; Win64; x64) AppleWebKit/537.36 (KHTML, like Gecko) Chrome/124.0.0.0 Safari/537.36"),
     ("Accept", "text/html,application/xhtml+xml,application/xml;q=0.9,*/*;q=0.8"),
     ("Accept-Language", "en-US,en;q=0.9")] ]

def CONTENT_SELECTORS : List String :=
  [".post-content", ".entry-content", ".post-body", ".article-body",
   ".blog-post", ".single-post", "#content", ".content", "article", "main"]

def MIN_CONTENT_WORDS : Nat := 100

def blockSignals : List String :=
  ["just a moment", "checking your browser", "cf-challenge", "challenge-platform"]

def cloudflareReason : String :=
  "Cloudflare blocked the request (challenge page returned)"

def genericFailMsg : String := "Failed to fetch the page"

/-! ### Resilient fetcher -/

/-- `_is_blocked_page(html)`: case-insensitive scan of the first 5000
characters of the body for a fixed set of challenge-page signals. -/
def isBlockedPage (html : String) : Bool :=
  let lower := strToLower (html.toList.take 5000).asString
  blockSignals.any (fun s => containsStr lower s)

/-- One request profile's outcome, as delivered by the transport
capability: `ok body` is a response that passed `raise_for_status`,
`err msg` is any raised exception (network failure or non-2xx status)
rendered as its message string. -/
inductive Transport where
  | ok (body : String)
  | err (msg : String)

/-- The profile retry loop of `fetch_post`: iterate outcomes in profile
order carrying `last_error`; a blocked success records the Cloudflare
reason and continues; the first unblocked success is accepted.  Returns
the accepted body (if any) and the final `last_error`. -/
def runProfiles : Option String → List Transport → Option String × Option String
  | le, [] => (none, le)
  | _, Transport.err msg :: rest => runProfiles (some msg) rest
  | le, Transport.ok body :: rest =>
    if isBlockedPage body then runProfiles (some cloudflareReason) rest
    else (some body, le)

/-! ### Extraction -/

structure Heading where
  level : String
  text : String
deriving DecidableEq

structure Link where
  text : String
  href : String
deriving DecidableEq, BEq

/-- A value in the returned record (a Python dict value). -/
inductive Val where
  | str (s : String)
  | num (n : Nat)
  | headingList (hs : List Heading)
  | linkList (ls : List Link)
  | null
deriving DecidableEq

/-- Title resolution: first `h1` anywhere, else the `title` element, else
empty. -/
def titleOf (doc : Node) : String :=
  match findTag "h1" doc with
  | some h => getTextStrip h
  | none =>
    match findTag "title" doc with
    | some t => getTextStrip t
    | none => ""

/-- Word count used for candidate acceptance:
`len(candidate.get_text(strip=True).split())`. -/
def wordsOf (n : Node) : Nat :=
  (pySplit (getTextStrip n)).length

/-- The selector loop: first selector whose first match has at least
`MIN_CONTENT_WORDS` words. -/
def findContentArea (doc : Node) : List String → Option Node
  | [] => none
  | sel :: rest =>
    match selectOne sel doc with
    | some cand =>
      if MIN_CONTENT_WORDS ≤ wordsOf cand then some cand
      else findContentArea doc rest
    | none => findContentArea doc rest

/-- `content_area` after the loop, with the `soup.body or soup`
fallback. -/
def contentAreaOf (doc : Node) : Node :=
  match findContentArea doc CONTENT_SELECTORS with
  | some c => c
  | none =>
    match findTag "body" doc with
    | some b => b
    | none => doc

/-- Headings of the content region: `find_all(["h2", "h3"])` with level
tag and stripped text. -/
def headingsOf (region : Node) : List Heading :=
  (findTags ["h2", "h3"] region).map (fun n => ⟨tagOf n, getTextStrip n⟩)

/-- The anchors of the region: `find_all("a", href=True)`, each with its
stripped text and href value. -/
def anchorsOf (region : Node) : List (String × String) :=
  (descendants region).filterMap (fun n =>
    match n with
    | .element "a" attrs _ => (getAttr "href" attrs).map (fun h => (getTextStrip n, h))
    | _ => none)

/-- The link loop of `fetch_post`: skip empty, fragment and mailto hrefs;
internal when the (non-empty) domain occurs in the href or the href is
site-relative; else external when the href starts with `http`; else
dropped. -/
def classifyLinks (domain : String) : List (String × String) → List Link × List Link
  | [] => ([], [])
  | (text, href) :: rest =>
    let tail := classifyLinks domain rest
    if href == "" || strStartsWith href "#" || strStartsWith href "mailto:" then tail
    else if !(domain == "") && containsStr href domain then (⟨text, href⟩ :: tail.1, tail.2)
    else if strStartsWith href "/" then (⟨text, href⟩ :: tail.1, tail.2)
    else if strStartsWith href "http" then (tail.1, ⟨text, href⟩ :: tail.2)
    else tail

/-- `re.sub(r"\n{3,}", "\n\n", s)` on the character list: the regex scan
matches, at each newline followed by at least two more, the maximal
newline run (greedy), replaces it with two newlines, and resumes after
it. -/
def collapseNl : List Char → List Char
  | [] => []
  | c :: rest =>
    if c = '\n' ∧ 2 ≤ (rest.takeWhile (fun x => x == '\n')).length then
      '\n' :: '\n' :: collapseNl (rest.dropWhile (fun x => x == '\n'))
    else
      c :: collapseNl rest
termination_by l => l.length
decreasing_by
  all_goals
    exact Nat.lt_succ_of_le (by
      first
      | exact List.Sublist.length_le (List.dropWhile_sublist _)
      | exact Nat.le_refl _)

def normalizeBody (s : String) : String :=
  (collapseNl s.toList).asString

/-- Trailing-separator strip: Python `path.rstrip("/")` removes every
trailing slash. -/
def dropTrailingSlashes (p : List Char) : List Char :=
  (p.reverse.dropWhile (fun c => c == '/')).reverse

/-- Python `s.split(sep)` on characters. -/
def splitChar (sep : Char) : List Char → List (List Char) :=
  splitBy (fun c => c == sep)

/-- Python `lst[-1]` on a list known to be non-empty. -/
def pyLast (l : List (List Char)) : List Char :=
  match l.getLast? with
  | some x => x
  | none => []

/-- Python `sep in s` on a character list. -/
def containsChar (sep : Char) : List Char → Bool
  | [] => false
  | c :: rest => (c == sep) || containsChar sep rest

/-- Slug derivation from the URL path:
`path = urlparse(url).path.rstrip("/")` then
`slug = path.split("/")[-1] if "/" in path else path or "post"`. -/
def slugOfPath (path : String) : String :=
  let p := dropTrailingSlashes path.toList
  if containsChar '/' p then (pyLast (splitChar '/' p)).asString
  else if p.isEmpty then "post"
  else p.asString

/-- The external parsing capabilities used by `fetch_post`:
`BeautifulSoup(text, "html.parser")` and `urlparse(url)`'s netloc and
path components. -/
structure Env where
  parse : String → Node
  netloc : String → String
  pathOf : String → String

/-- The extraction stage of `fetch_post` (lines 68–138), run on the
accepted response body.  Returns the Python dict as an ordered
association list, keys in literal order. -/
def extract (env : Env) (url : String) (markup : String) : List (String × Val) :=
  let soup := env.parse markup
  let title := titleOf soup
  let area := contentAreaOf soup
  let headings := headingsOf area
  let domain := env.netloc url
  let links := classifyLinks domain (anchorsOf area)
  let body := normalizeBody (getTextNl area)
  let wc := (pySplit body).length
  let slug := slugOfPath (env.pathOf url)
  [("url", Val.str url), ("slug", Val.str slug), ("title", Val.str title),
   ("headings", Val.headingList headings), ("body_text", Val.str body),
   ("internal_links", Val.linkList links.1), ("external_links", Val.linkList links.2),
   ("word_count", Val.num wc), ("error", Val.null)]

/-- `fetch_post(url)`: run the profile loop over the transport's
outcomes (one per header set, in order); on exhaustion return the error
record `{"error": last_error or "Failed to fetch the page", "url": url}`
(Python `or`: the generic message also replaces an empty-string reason);
otherwise extract from the accepted body. -/
def fetchPost (env : Env) (url : String) (outcomes : List Transport) : List (String × Val) :=
  match runProfiles none outcomes with
  | (none, le) =>
    let msg :=
      match le with
      | some s => if s == "" then genericFailMsg else s
      | none => genericFailMsg
    [("error", Val.str msg), ("url", Val.str url)]
  | (some body, _) => extract env url body

/-! ### Helper lemmas -/

theorem startsWithList_iff (n h : List Char) : startsWithList n h = true ↔ n <+: h := by
  induction n generalizing h with
  | nil => simp [startsWithList]
  | cons a ns ih =>
    cases h with
    | nil => simp [startsWithList]
    | cons b hs =>
      rw [startsWithList, List.cons_prefix_cons]
      simp [ih]

theorem containsList_iff (n h : List Char) : containsList n h = true ↔ n <:+: h := by
  induction h with
  | nil =>
    cases n with
    | nil => simp [containsList, startsWithList]
    | cons a ns => simp [containsList, startsWithList]
  | cons b hs ih =>
    simp [containsList, ih, startsWithList_iff, List.infix_cons_iff]

theorem containsStr_iff (hay needle : String) :
    containsStr hay needle = true ↔ needle.toList <:+: hay.toList := by
  exact containsList_iff needle.toList hay.toList

/-! ### Concrete fixtures for witnesses and counterexamples -/

/-- A concrete instance of the external parse and URL-parse
capabilities, for closed statements. -/
def env0 : Env :=
  { parse := fun s => Node.element "[document]" [] [Node.text s],
    netloc := fun _ => "x.com",
    pathOf := fun _ => "/blog/my-post/" }

/-! ### C9: determinism of extraction -/

/-- C9: for a fixed markup string and URL, the extraction stage is a
pure function of its two inputs (given the fixed parse and URL-parse
capabilities): two runs produce identical records. -/
theorem extract_deterministic (env : Env) (markup1 markup2 url1 url2 : String)
    (hm : markup1 = markup2) (hu : url1 = url2) :
    extract env url1 markup1 = extract env url2 markup2 := by
  subst hm
  subst hu
  rfl

/-- Witness for C9 at concrete inputs. -/
theorem extract_deterministic_witness :
    extract env0 "https://x.com/blog/my-post/" "<p>hi</p>"
      = extract env0 "https://x.com/blog/my-post/" "<p>hi</p>" :=
  extract_deterministic env0 "<p>hi</p>" "<p>hi</p>"
    "https://x.com/blog/my-post/" "https://x.com/blog/my-post/" rfl rfl

/-! ### C7: output record shape -/

/-- The literal key order of the success record in `fetch_post`. -/
def successKeys : List String :=
  ["url", "slug", "title", "headings", "body_text",
   "internal_links", "external_links", "word_count", "error"]

/-- C7 counterexample: the claim says every returned record has all
fields present as keys, but the record returned on a failed fetch has
only the `error` and `url` keys — `slug` (and the other content fields)
is absent. -/
theorem record_shape_cex :
    (fetchPost env0 "https://x.com/blog/my-post/" [Transport.err "boom"]).map Prod.fst
        = ["error", "url"]
    ∧ ¬ ("slug" ∈ (fetchPost env0 "https://x.com/blog/my-post/"
          [Transport.err "boom"]).map Prod.fst) := by
  constructor
  · rfl
  · decide

/-- C7 (amended): a returned record either is an error record with
exactly the keys `error` and `url` and a non-null string `error` value,
or is a success record with all nine fields in literal order and a null
`error` value — so exactly one of populated content fields and a
non-null error holds per result. -/
theorem record_shape (env : Env) (url : String) (outs : List Transport) :
    ((fetchPost env url outs).map Prod.fst = ["error", "url"]
      ∧ ∃ msg : String,
          List.lookup "error" (fetchPost env url outs) = some (Val.str msg))
  ∨ ((fetchPost env url outs).map Prod.fst = successKeys
      ∧ List.lookup "error" (fetchPost env url outs) = some Val.null) := by
  rcases hrp : runProfiles none outs with ⟨acc, le⟩
  cases acc with
  | none =>
    left
    have hf : fetchPost env url outs =
        [("error", Val.str (match le with
            | some s => if s == "" then genericFailMsg else s
            | none => genericFailMsg)),
         ("url", Val.str url)] := by
      simp only [fetchPost, hrp]
      cases le <;> rfl
    rw [hf]
    exact ⟨rfl, ⟨_, rfl⟩⟩
  | some body =>
    right
    constructor <;> simp [fetchPost, hrp, extract, successKeys, List.lookup]

/-! ### C3: terminal fetch failure -/

/-- The failure reason one profile's rejected outcome records: the
exception message for a transport error, the fixed Cloudflare message
for a soft-blocked response. -/
def profileReason : Transport → String
  | .err m => m
  | .ok _ => cloudflareReason

/-- The most recently recorded per-profile reason, over the whole
profile list. -/
def lastRecordedReason (outs : List Transport) : Option String :=
  (outs.map profileReason).getLast?

/-- A profile outcome the loop rejects: any transport error, or a
success whose body is a detected challenge page. -/
def rejectedOutcome : Transport → Prop
  | .err _ => True
  | .ok body => isBlockedPage body = true

theorem getLast?_cons_or {α : Type} (m : α) (l : List α) (le : Option α) :
    ((m :: l).getLast?).or le = (l.getLast?).or (some m) := by
  cases l with
  | nil => simp
  | cons a t => rw [List.getLast?_cons_cons]; cases h : (a :: t).getLast? with
    | none => simp at h
    | some x => simp

theorem runProfiles_all_rejected (outs : List Transport) :
    ∀ le : Option String, (∀ o ∈ outs, rejectedOutcome o) →
      runProfiles le outs = (none, ((outs.map profileReason).getLast?).or le) := by
  induction outs with
  | nil => intro le _; simp [runProfiles]
  | cons o rest ih =>
    intro le h
    have hrest : ∀ x ∈ rest, rejectedOutcome x := fun x hx => h x (List.mem_cons_of_mem o hx)
    cases o with
    | err m =>
      simp only [runProfiles]
      rw [ih (some m) hrest, List.map_cons, getLast?_cons_or]
      rfl
    | ok body =>
      have hb : isBlockedPage body = true := h (Transport.ok body) (List.mem_cons_self _ _)
      simp only [runProfiles]
      rw [if_pos hb, ih (some cloudflareReason) hrest, List.map_cons, getLast?_cons_or]
      rfl

/-- C3 counterexample: with a single profile whose transport error
message is the empty string, a reason was recorded (the empty string),
yet the returned error is the generic message, not the recorded reason —
Python's `last_error or "Failed to fetch the page"` also discards an
empty-string reason. -/
theorem fetch_failure_cex :
    lastRecordedReason [Transport.err ""] = some ""
    ∧ List.lookup "error" (fetchPost env0 "https://x.com/a" [Transport.err ""])
        = some (Val.str genericFailMsg)
    ∧ genericFailMsg ≠ "" := by
  refine ⟨rfl, rfl, by decide⟩

/-- C3 (amended): if every profile is rejected, `fetch_post` returns the
two-field error record (extraction never runs — the result does not
depend on the parse capability), whose error string is the most recently
recorded per-profile reason, except that the generic message replaces it
when no reason was recorded or the recorded reason is the empty
string. -/
theorem fetch_failure_error (env : Env) (url : String) (outs : List Transport)
    (h : ∀ o ∈ outs, rejectedOutcome o) :
    fetchPost env url outs =
      [("error", Val.str (match lastRecordedReason outs with
          | some r => if r == "" then genericFailMsg else r
          | none => genericFailMsg)),
       ("url", Val.str url)] := by
  have hr := runProfiles_all_rejected outs none h
  rw [Option.or_none] at hr
  rw [fetchPost, hr, lastRecordedReason]

/-- Witness for C3's amended theorem at a concrete rejected profile
list. -/
theorem fetch_failure_error_witness :
    fetchPost env0 "https://x.com/a" [Transport.err "dns failure"] =
      [("error", Val.str "dns failure"), ("url", Val.str "https://x.com/a")] := by
  have h := fetch_failure_error env0 "https://x.com/a" [Transport.err "dns failure"]
    (by intro o ho; rw [List.mem_singleton] at ho; subst ho; exact trivial)
  exact h.trans (by rfl)

/-! ### C4: slug derivation -/

/-- The substring after the last occurrence of `sep` (the whole string
when `sep` does not occur). -/
def lastSeg (sep : Char) : List Char → List Char
  | [] => []
  | c :: rest =>
    if (c == sep) || containsChar sep rest then lastSeg sep rest else c :: rest

/-- The claimed slug procedure, word for word: strip a SINGLE trailing
slash, take the substring after the last slash; an empty (stripped) path
gives the literal `"post"`. -/
def slugSpecSingle (path : String) : String :=
  let p := if strEndsWith path "/" then path.toList.dropLast else path.toList
  if p.isEmpty then "post" else (lastSeg '/' p).asString

/-- The amended slug procedure: strip ALL trailing slashes, take the
substring after the last slash (the whole stripped path when it has no
slash); an empty stripped path gives the literal `"post"`. -/
def slugSpecAll (path : String) : String :=
  let p := dropTrailingSlashes path.toList
  if p.isEmpty then "post" else (lastSeg '/' p).asString

theorem lastSeg_of_not_contains (sep : Char) (l : List Char)
    (h : containsChar sep l = false) : lastSeg sep l = l := by
  cases l with
  | nil => rfl
  | cons c rest =>
    rw [containsChar] at h
    rw [lastSeg, if_neg (by rw [h]; exact Bool.false_ne_true)]

theorem splitBy_ne_nil (p : Char → Bool) (l : List Char) : splitBy p l ≠ [] := by
  cases l with
  | nil => simp [splitBy]
  | cons c rest =>
    rw [splitBy]
    split
    · exact List.cons_ne_nil _ _
    · cases hsp : splitBy p rest with
      | nil => exact List.cons_ne_nil _ _
      | cons g gs => exact List.cons_ne_nil _ _

theorem splitChar_of_not_contains (sep : Char) (l : List Char)
    (h : containsChar sep l = false) : splitChar sep l = [l] := by
  induction l with
  | nil => rfl
  | cons c rest ih =>
    rw [containsChar, Bool.or_eq_false_iff] at h
    show splitBy (fun x => x == sep) (c :: rest) = [c :: rest]
    rw [splitBy, h.1, if_neg Bool.false_ne_true]
    rw [show splitBy (fun x => x == sep) rest = splitChar sep rest from rfl, ih h.2]

theorem splitChar_two_le (sep : Char) (l : List Char)
    (h : containsChar sep l = true) : 2 ≤ (splitChar sep l).length := by
  induction l with
  | nil => simp [containsChar] at h
  | cons c rest ih =>
    rw [containsChar, Bool.or_eq_true] at h
    show 2 ≤ (splitBy (fun x => x == sep) (c :: rest)).length
    rw [splitBy]
    cases hc : (c == sep) with
    | false =>
      have hrest : containsChar sep rest = true := by
        cases h with
        | inl hh => rw [hc] at hh; exact absurd hh Bool.false_ne_true
        | inr hh => exact hh
      rw [if_neg Bool.false_ne_true]
      have h2 := ih hrest
      rw [show splitChar sep rest = splitBy (fun x => x == sep) rest from rfl] at h2
      rcases hsp : splitBy (fun x => x == sep) rest with _ | ⟨g, gs⟩
      · exact absurd hsp (splitBy_ne_nil _ _)
      · rw [hsp] at h2
        show 2 ≤ ((c :: g) :: gs).length
        simpa using h2
    | true =>
      rw [if_pos rfl]
      rcases hsp : splitBy (fun x => x == sep) rest with _ | ⟨g, gs⟩
      · exact absurd hsp (splitBy_ne_nil _ _)
      · simp

theorem pyLast_splitChar (sep : Char) (l : List Char) :
    pyLast (splitChar sep l) = lastSeg sep l := by
  induction l with
  | nil => rfl
  | cons c rest ih =>
    show pyLast (splitBy (fun x => x == sep) (c :: rest)) = lastSeg sep (c :: rest)
    rw [splitBy, lastSeg]
    cases hc : (c == sep) with
    | false =>
      rw [if_neg Bool.false_ne_true]
      cases hcr : containsChar sep rest with
      | false =>
        rw [if_neg (by simp)]
        rw [show splitBy (fun x => x == sep) rest = splitChar sep rest from rfl,
          splitChar_of_not_contains sep rest hcr]
        rfl
      | true =>
        rw [if_pos (by simp)]
        have h2 := splitChar_two_le sep rest hcr
        rw [show splitChar sep rest = splitBy (fun x => x == sep) rest from rfl] at h2 ih
        rcases hsp : splitBy (fun x => x == sep) rest with _ | ⟨g, gs⟩
        · exact absurd hsp (splitBy_ne_nil _ _)
        · rw [hsp] at h2 ih
          cases gs with
          | nil => simp at h2
          | cons g2 gs2 =>
            rw [← ih]
            show pyLast ((c :: g) :: g2 :: gs2) = pyLast (g :: g2 :: gs2)
            rw [pyLast, pyLast, List.getLast?_cons_cons, List.getLast?_cons_cons]
    | true =>
      rw [if_pos rfl, if_pos (by simp)]
      rw [show splitChar sep rest = splitBy (fun x => x == sep) rest from rfl] at ih
      rw [← ih]
      rcases hsp : splitBy (fun x => x == sep) rest with _ | ⟨g, gs⟩
      · exact absurd hsp (splitBy_ne_nil _ _)
      · show pyLast ([] :: g :: gs) = pyLast (g :: gs)
        rw [pyLast, pyLast, List.getLast?_cons_cons]

/-- C4 counterexample: at path `"/blog/my-post//"` (two trailing
slashes) the code strips both slashes and yields `"my-post"`, while the
claimed procedure strips a single slash and yields `""` — the claim as
stated is false. -/
theorem slug_cex :
    slugOfPath "/blog/my-post//" = "my-post"
    ∧ slugSpecSingle "/blog/my-post//" = ""
    ∧ slugOfPath "/blog/my-post//" ≠ slugSpecSingle "/blog/my-post//" := by
  refine ⟨by decide, by decide, by decide⟩

/-- C4 (amended): the slug is the URL path with ALL trailing slashes
stripped, then the substring after the last slash (the whole stripped
path when it has no slash), and the literal `"post"` when the stripped
path is empty; in particular path `"/blog/my-post/"` yields `"my-post"`,
paths `"/"` and `""` yield `"post"`, and `"/blog/my-post"` yields
`"my-post"`. -/
theorem slug_derivation :
    (∀ path : String, slugOfPath path = slugSpecAll path)
    ∧ slugOfPath "/blog/my-post/" = "my-post"
    ∧ slugOfPath "/" = "post"
    ∧ slugOfPath "" = "post"
    ∧ slugOfPath "/blog/my-post" = "my-post" := by
  refine ⟨?_, by decide, by decide, by decide, by decide⟩
  intro path
  rw [slugOfPath, slugSpecAll]
  cases hc : containsChar '/' (dropTrailingSlashes path.toList) with
  | false =>
    rw [if_neg Bool.false_ne_true]
    rw [lastSeg_of_not_contains '/' _ hc]
  | true =>
    rw [if_pos rfl, pyLast_splitChar]
    have hne : ¬ (dropTrailingSlashes path.toList).isEmpty = true := by
      intro he
      rw [List.isEmpty_iff] at he
      rw [he] at hc
      simp [containsChar] at hc
    rw [if_neg hne]

/-! ### C1: content-area discovery -/

/-- The claimed content-area procedure, stated from the spec's words:
over the fixed selector list in its given order, take each selector's
first matching region in document order, keep those whose plain-text
word count is at least 100, and accept the first; if none, the
document's body, or the whole document when no body element exists. -/
def specContentArea (doc : Node) : Node :=
  match (CONTENT_SELECTORS.filterMap (fun sel =>
      (selectOne sel doc).filter (fun c => decide (100 ≤ wordsOf c)))).head? with
  | some c => c
  | none =>
    match findTag "body" doc with
    | some b => b
    | none => doc

theorem findContentArea_eq (doc : Node) (sels : List String) :
    findContentArea doc sels =
      (sels.filterMap (fun sel =>
        (selectOne sel doc).filter
          (fun c => decide (MIN_CONTENT_WORDS ≤ wordsOf c)))).head? := by
  induction sels with
  | nil => rfl
  | cons sel rest ih =>
    rw [List.filterMap_cons]
    cases hs : selectOne sel doc with
    | none =>
      simp only [findContentArea, hs, Option.filter]
      exact ih
    | some cand =>
      cases hw : decide (MIN_CONTENT_WORDS ≤ wordsOf cand) with
      | true =>
        simp only [findContentArea, hs, Option.filter, hw,
          if_pos (of_decide_eq_true hw)]
        rfl
      | false =>
        simp only [findContentArea, hs, Option.filter, hw,
          if_neg (of_decide_eq_false hw)]
        exact ih

/-- A region holding exactly `n` space-separated words, matched by the
first selector `.post-content`, inside a body-less document. -/
def wordsText (n : Nat) : String := String.intercalate " " (List.replicate n "w")

def wordRegion (n : Nat) : Node :=
  Node.element "div" [("class", "post-content")] [Node.text (wordsText n)]

def docWords (n : Nat) : Node := Node.element "[document]" [] [wordRegion n]

/-- C1: the extractor's accepted content region follows the claimed
procedure on every document — selectors in order, first match per
selector, accept at word count 100 or more, body/whole-document
fallback; at the boundary, a region of exactly 100 words is accepted
while one of 99 words is rejected (falling through, here, to the whole
document since the fixture has no body element). -/
theorem content_area_discovery :
    (∀ doc : Node, contentAreaOf doc = specContentArea doc)
    ∧ contentAreaOf (docWords 100) = wordRegion 100
    ∧ contentAreaOf (docWords 99) = docWords 99 := by
  refine ⟨?_, by rfl, by rfl⟩
  intro doc
  rw [contentAreaOf, specContentArea, findContentArea_eq]
  rfl

/-! ### C2: soft-block rejection -/

theorem runProfiles_ok_blocked (le : Option String) (body : String)
    (rest : List Transport) (h : isBlockedPage body = true) :
    runProfiles le (Transport.ok body :: rest)
      = runProfiles (some cloudflareReason) rest := by
  simp only [runProfiles]
  rw [if_pos h]

theorem runProfiles_ok_clean (le : Option String) (body : String)
    (rest : List Transport) (h : isBlockedPage body = false) :
    runProfiles le (Transport.ok body :: rest) = (some body, le) := by
  simp only [runProfiles]
  rw [if_neg (by rw [h]; exact Bool.false_ne_true)]

/-- C2: a response whose first 5000 characters contain, case
insensitively, one of the block signals (that is the exact content of
`isBlockedPage`) is never the accepted response of the profile loop,
whatever its status; instead the loop records the Cloudflare reason and
proceeds to the next profile.  A signal occurring only beyond the first
5000 characters does not trigger this (the equivalence runs over the
truncated, lowered prefix only). -/
theorem blocked_page_rejection :
    (∀ html : String, isBlockedPage html = true ↔
        ∃ s ∈ blockSignals,
          s.toList <:+: (strToLower (html.toList.take 5000).asString).toList)
  ∧ (∀ (le : Option String) (outs : List Transport) (body : String),
        (runProfiles le outs).1 = some body → isBlockedPage body = false)
  ∧ (∀ (le : Option String) (body : String) (rest : List Transport),
        isBlockedPage body = true →
          runProfiles le (Transport.ok body :: rest)
            = runProfiles (some cloudflareReason) rest) := by
  refine ⟨?_, ?_, ?_⟩
  · intro html
    rw [isBlockedPage]
    simp only [List.any_eq_true]
    constructor
    · rintro ⟨s, hs, hc⟩
      exact ⟨s, hs, (containsStr_iff _ _).mp hc⟩
    · rintro ⟨s, hs, hc⟩
      exact ⟨s, hs, (containsStr_iff _ _).mpr hc⟩
  · intro le outs
    induction outs generalizing le with
    | nil =>
      intro body h
      exact absurd h (by simp [runProfiles])
    | cons o rest ih =>
      intro body h
      cases o with
      | err m =>
        have hstep : runProfiles le (Transport.err m :: rest)
            = runProfiles (some m) rest := by
          simp only [runProfiles]
        rw [hstep] at h
        exact ih (some m) body h
      | ok b =>
        cases hb : isBlockedPage b with
        | true =>
          rw [runProfiles_ok_blocked le b rest hb] at h
          exact ih (some cloudflareReason) body h
        | false =>
          rw [runProfiles_ok_clean le b rest hb] at h
          have hb2 : b = body := by simpa using h
          rw [← hb2]
          exact hb
  · intro le body rest h
    exact runProfiles_ok_blocked le body rest h

/-- Witness for C2 at a concrete challenge page body. -/
theorem blocked_page_rejection_witness :
    runProfiles none [Transport.ok "Just a moment... checking"]
      = (none, some cloudflareReason) := by
  have h := blocked_page_rejection.2.2 none "Just a moment... checking" [] (by decide)
  exact h

/-! ### C5: link classification -/

/-- C5: one step of the link loop follows the claimed rule exactly (for
a request URL with a non-empty hostname): an anchor with empty,
fragment or mailto href is dropped; otherwise it is internal when the
hostname occurs in the href as a substring or the href is
site-relative; otherwise external when the href starts with `http`;
otherwise silently dropped.  Kept links are prepended in encounter
order with no deduplication. -/
theorem link_classification (domain t href : String)
    (rest : List (String × String)) (hd : domain ≠ "") :
    classifyLinks domain ((t, href) :: rest) =
      if href = "" ∨ strStartsWith href "#" = true
          ∨ strStartsWith href "mailto:" = true then
        classifyLinks domain rest
      else if domain.toList <:+: href.toList ∨ strStartsWith href "/" = true then
        (⟨t, href⟩ :: (classifyLinks domain rest).1, (classifyLinks domain rest).2)
      else if strStartsWith href "http" = true then
        ((classifyLinks domain rest).1, ⟨t, href⟩ :: (classifyLinks domain rest).2)
      else classifyLinks domain rest := by
  have hcs : containsStr href domain = true ↔ domain.toList <:+: href.toList :=
    containsStr_iff href domain
  simp only [classifyLinks]
  split_ifs <;>
    first
      | rfl
      | (exfalso
         simp_all only [Bool.or_eq_true, Bool.and_eq_true, Bool.not_eq_true',
           beq_iff_eq, beq_eq_false_iff_ne, ne_eq, Bool.not_eq_true]
         tauto)

/-- Witness for C5 at the claim's own example: a site-relative href is
internal. -/
theorem link_classification_witness :
    classifyLinks "x.com" [("a", "/about")] = ([⟨"a", "/about"⟩], []) := by
  rw [link_classification "x.com" "a" "/about" [] (by decide)]
  decide

/-! ### C10: link-list disjointness -/

/-- C10: every anchor occurrence contributes to at most one of the two
link lists — counted with multiplicity, the occurrences of a link in
`internal_links` plus those in `external_links` never exceed its
occurrences among the region's anchors. -/
theorem link_lists_disjoint (domain : String)
    (anchors : List (String × String)) (lk : Link) :
    (classifyLinks domain anchors).1.count lk
        + (classifyLinks domain anchors).2.count lk
      ≤ (anchors.map (fun a => Link.mk a.1 a.2)).count lk := by
  induction anchors with
  | nil => simp [classifyLinks]
  | cons a rest ih =>
    obtain ⟨t, href⟩ := a
    simp only [classifyLinks, List.map_cons]
    split_ifs <;> simp only [List.count_cons] <;> omega

/-! ### C8: title resolution -/

/-- C8: the title is the stripped text of the first `h1` anywhere in
the document; with no `h1`, the stripped text of the `title` element;
with neither, the empty string — and the extraction record's `title`
field carries exactly this value, so structural absence is never an
error. -/
theorem title_resolution (doc : Node) :
    (∀ h, findTag "h1" doc = some h → titleOf doc = getTextStrip h)
  ∧ (findTag "h1" doc = none →
      ∀ t, findTag "title" doc = some t → titleOf doc = getTextStrip t)
  ∧ (findTag "h1" doc = none → findTag "title" doc = none → titleOf doc = "")
  ∧ (∀ (env : Env) (url markup : String),
      List.lookup "title" (extract env url markup)
        = some (Val.str (titleOf (env.parse markup)))) := by
  refine ⟨?_, ?_, ?_, ?_⟩
  · intro h hh
    rw [titleOf, hh]
  · intro hn t ht
    rw [titleOf, hn, ht]
  · intro hn ht
    rw [titleOf, hn, ht]
  · intro env url markup
    rfl

/-- A one-heading fixture document. -/
def docT : Node :=
  Node.element "[document]" [] [Node.element "h1" [] [Node.text " Hello  World "]]

/-- Witness for C8: the `h1` text, stripped, becomes the title. -/
theorem title_resolution_witness : titleOf docT = "Hello  World" := by
  have h := (title_resolution docT).1
    (Node.element "h1" [] [Node.text " Hello  World "]) (by rfl)
  exact h.trans (by rfl)

/-! ### C6: body-text normalization -/

theorem takeWhile_nl_of_head (ys : List Char) (hy : ys.head? ≠ some '\n') :
    ys.takeWhile (fun x => x == '\n') = [] := by
  cases ys with
  | nil => rfl
  | cons y t =>
    have hne : ¬((y == '\n') = true) := by
      intro hb
      rw [beq_iff_eq] at hb
      exact hy (by simp [hb])
    rw [List.takeWhile_cons, if_neg hne]

theorem dropWhile_nl_of_head (ys : List Char) (hy : ys.head? ≠ some '\n') :
    ys.dropWhile (fun x => x == '\n') = ys := by
  cases ys with
  | nil => rfl
  | cons y t =>
    have hne : ¬((y == '\n') = true) := by
      intro hb
      rw [beq_iff_eq] at hb
      exact hy (by simp [hb])
    rw [List.dropWhile_cons, if_neg hne]

theorem dropWhile_nl_replicate_append (m : Nat) (ys : List Char)
    (hy : ys.head? ≠ some '\n') :
    (List.replicate m '\n' ++ ys).dropWhile (fun x => x == '\n') = ys := by
  induction m with
  | zero => simpa using dropWhile_nl_of_head ys hy
  | succ k ih =>
    rw [List.replicate_succ, List.cons_append, List.dropWhile_cons_of_pos (by rfl)]
    exact ih

theorem takeWhile_nl_replicate_append (m : Nat) (ys : List Char)
    (hy : ys.head? ≠ some '\n') :
    (List.replicate m '\n' ++ ys).takeWhile (fun x => x == '\n')
      = List.replicate m '\n' := by
  induction m with
  | zero => simpa using takeWhile_nl_of_head ys hy
  | succ k ih =>
    rw [List.replicate_succ, List.cons_append,
      List.takeWhile_cons_of_pos (by rfl), ih]

theorem collapseNl_run (n : Nat) (hn : 3 ≤ n) (ys : List Char)
    (hy : ys.head? ≠ some '\n') :
    collapseNl (List.replicate n '\n' ++ ys) = '\n' :: '\n' :: collapseNl ys := by
  obtain ⟨m, rfl⟩ : ∃ m, n = m + 3 := ⟨n - 3, by omega⟩
  have hrep : List.replicate (m + 3) '\n' ++ ys
      = '\n' :: ('\n' :: '\n' :: (List.replicate m '\n' ++ ys)) := rfl
  rw [hrep]
  have htw : List.takeWhile (fun x => x == '\n')
        ('\n' :: '\n' :: (List.replicate m '\n' ++ ys))
      = '\n' :: '\n' :: List.replicate m '\n' := by
    rw [List.takeWhile_cons_of_pos (by rfl), List.takeWhile_cons_of_pos (by rfl),
      takeWhile_nl_replicate_append m ys hy]
  have hdw : List.dropWhile (fun x => x == '\n')
        ('\n' :: '\n' :: (List.replicate m '\n' ++ ys)) = ys := by
    rw [List.dropWhile_cons_of_pos (by rfl), List.dropWhile_cons_of_pos (by rfl),
      dropWhile_nl_replicate_append m ys hy]
  simp only [collapseNl, htw, hdw]
  rw [if_pos (show True ∧ 2 ≤ ('\n' :: '\n' :: List.replicate m '\n').length from
    ⟨trivial, by simp only [List.length_cons, List.length_replicate]; omega⟩)]

theorem getLast?_tail (c : Char) (xs : List Char)
    (hx : (c :: xs).getLast? ≠ some '\n') : xs.getLast? ≠ some '\n' := by
  cases xs with
  | nil => simp
  | cons a t =>
    intro hcontra
    apply hx
    rw [show c :: a :: t = [c] ++ (a :: t) from rfl,
      List.getLast?_append_of_ne_nil [c] (by simp)]
    exact hcontra

theorem collapseNl_append_run : ∀ (k : Nat) (xs : List Char), xs.length ≤ k →
    xs.getLast? ≠ some '\n' →
    ∀ (n : Nat), 3 ≤ n → ∀ (ys : List Char), ys.head? ≠ some '\n' →
    collapseNl (xs ++ List.replicate n '\n' ++ ys)
      = collapseNl xs ++ '\n' :: '\n' :: collapseNl ys := by
  intro k
  induction k with
  | zero =>
    intro xs hlen hx n hn ys hy
    have hxe : xs = [] := List.eq_nil_of_length_eq_zero (Nat.le_zero.mp hlen)
    subst hxe
    rw [List.nil_append, collapseNl_run n hn ys hy]
    simp [collapseNl]
  | succ k ih =>
    intro xs hlen hx n hn ys hy
    cases xs with
    | nil =>
      rw [List.nil_append, collapseNl_run n hn ys hy]
      simp [collapseNl]
    | cons c xs' =>
      have hlen' : xs'.length ≤ k := by
        simp only [List.length_cons] at hlen
        omega
      have hlast' : xs'.getLast? ≠ some '\n' := getLast?_tail c xs' hx
      by_cases hc : c = '\n'
      · subst hc
        have hxs' : xs' ≠ [] := by
          rintro rfl
          exact hx rfl
        have hdw : xs'.dropWhile (fun x => x == '\n') ≠ [] := by
          intro hnil
          have hall := List.dropWhile_eq_nil_iff.mp hnil
          have hmem := List.getLast_mem hxs'
          have hlastnl := hall _ hmem
          rw [beq_iff_eq] at hlastnl
          exact hlast' (by rw [List.getLast?_eq_getLast_of_ne_nil hxs', hlastnl])
        have htw : (xs' ++ (List.replicate n '\n' ++ ys)).takeWhile (fun x => x == '\n')
            = xs'.takeWhile (fun x => x == '\n') := by
          rw [List.takeWhile_append]
          rw [if_neg]
          intro hlen_eq
          have hsum := congrArg List.length
            (List.takeWhile_append_dropWhile (fun x => x == '\n') xs')
          rw [List.length_append] at hsum
          have hz : (xs'.dropWhile (fun x => x == '\n')).length = 0 := by omega
          exact hdw (List.eq_nil_of_length_eq_zero hz)
        have hdwa : (xs' ++ (List.replicate n '\n' ++ ys)).dropWhile (fun x => x == '\n')
            = xs'.dropWhile (fun x => x == '\n') ++ (List.replicate n '\n' ++ ys) := by
          rw [List.dropWhile_append]
          rw [if_neg]
          intro hemp
          exact hdw (List.isEmpty_iff.mp hemp)
        rw [show ('\n' :: xs') ++ List.replicate n '\n' ++ ys
            = '\n' :: (xs' ++ (List.replicate n '\n' ++ ys)) from by simp]
        simp only [collapseNl, htw]
        by_cases h2 : 2 ≤ (xs'.takeWhile (fun x => x == '\n')).length
        · rw [if_pos ⟨trivial, h2⟩, if_pos ⟨trivial, h2⟩, hdwa]
          have hlast2 : (xs'.dropWhile (fun x => x == '\n')).getLast? ≠ some '\n' := by
            intro hcontra
            apply hlast'
            rw [← List.takeWhile_append_dropWhile (fun x => x == '\n') xs',
              List.getLast?_append_of_ne_nil _ hdw]
            exact hcontra
          have hlen2 : (xs'.dropWhile (fun x => x == '\n')).length ≤ k :=
            le_trans (List.Sublist.length_le (List.dropWhile_sublist _)) hlen'
          rw [show xs'.dropWhile (fun x => x == '\n') ++ (List.replicate n '\n' ++ ys)
              = xs'.dropWhile (fun x => x == '\n') ++ List.replicate n '\n' ++ ys from by
            simp]
          rw [ih _ hlen2 hlast2 n hn ys hy]
          simp
        · rw [if_neg (fun hh => h2 hh.2), if_neg (fun hh => h2 hh.2)]
          rw [show xs' ++ (List.replicate n '\n' ++ ys)
              = xs' ++ List.replicate n '\n' ++ ys from by simp]
          rw [ih xs' hlen' hlast' n hn ys hy]
          simp
      · rw [show (c :: xs') ++ List.replicate n '\n' ++ ys
            = c :: (xs' ++ List.replicate n '\n' ++ ys) from by simp]
        simp only [collapseNl]
        rw [if_neg (fun hh => hc hh.1), if_neg (fun hh => hc hh.1)]
        rw [ih xs' hlen' hlast' n hn ys hy]
        simp

/-- C6: every maximal run of 3 or more newlines in the extracted text is
collapsed to exactly two newlines with the surrounding text unchanged
(so 4 consecutive newlines become 2), and the record's `word_count` is
the whitespace-token count of exactly the normalized `body_text`. -/
theorem body_normalization (xs ys : List Char) (n : Nat)
    (hx : xs.getLast? ≠ some '\n') (hn : 3 ≤ n) (hy : ys.head? ≠ some '\n') :
    collapseNl (xs ++ List.replicate n '\n' ++ ys)
      = collapseNl xs ++ '\n' :: '\n' :: collapseNl ys
  ∧ (∀ (env : Env) (url markup : String),
      List.lookup "body_text" (extract env url markup)
        = some (Val.str (normalizeBody (getTextNl (contentAreaOf (env.parse markup)))))
      ∧ List.lookup "word_count" (extract env url markup)
        = some (Val.num (pySplit (normalizeBody
            (getTextNl (contentAreaOf (env.parse markup))))).length)) := by
  refine ⟨collapseNl_append_run xs.length xs le_rfl hx n hn ys hy, ?_⟩
  intro env url markup
  exact ⟨rfl, rfl⟩

/-- Witness for C6: a run of 4 newlines between two letters collapses
to exactly 2. -/
theorem body_normalization_witness :
    collapseNl (['a'] ++ List.replicate 4 '\n' ++ ['b']) = ['a', '\n', '\n', 'b'] := by
  have h := (body_normalization ['a'] ['b'] 4 (by decide) (by decide) (by decide)).1
  rw [h]
  simp [collapseNl]

end ContentFetcher
